import Mathlib

/-!
Verification of the SciX Marine Heatwaves notebook
(`Marine_heatwaves_demo-2-checkpoint.ipynb`).

The notebook is a linear pipeline: open yearly OISST datasets by URL
pattern, slice to a time window, average anomaly / SST fields over two
bounding boxes, hand the Leeuwin Current series to the external
`marineHeatWaves` detector, and plot.  We embed the notebook's own glue
code directly; the external detector (`mhw.detect`), which ships outside
this repository, is modelled from the specification's description of its
behaviour.

Floating-point temperatures are modelled as rationals, machine dates as
their ordinal values (naturals).
-/

namespace MarineHeatwaves

/-! ## Numpy / Python primitives used by the notebook -/

/-- Numpy `np.arange(a, b)` with step 1 on naturals: the list `[a, a+1, ..., b-1]`
(empty when `b ≤ a`). -/
def arangeNat (a b : ℕ) : List ℕ := List.range' a (b - a)

/-- Numpy `np.arange(a, b)` with step 1 on integers: `[a, a+1, ..., b-1]`
(empty when `b ≤ a`). -/
def arangeInt (a b : ℤ) : List ℤ := (List.range (b - a).toNat).map (fun k => a + k)

/-- Python / numpy sequence indexing: non-negative indices count from the
front, negative indices count from the back, out of range is an error
(`none`). -/
def pyGet {α : Type} (l : List α) (i : ℤ) : Option α :=
  if 0 ≤ i then l.get? i.toNat
  else if (-i).toNat ≤ l.length then l.get? (l.length - (-i).toNat) else none

/-- Numpy `np.where(t == v)[0][0]`: the first position of `t` holding `v`;
`none` models the `IndexError` raised when no position matches. -/
def npWhereFirst (t : List ℕ) (v : ℕ) : Option ℕ :=
  t.findIdx? (fun d => d = v)

/-- Tail of `np.argmax`: scan the remaining list, keeping the index and
value of the best element seen so far (strictly greater replaces, so the
first maximum wins). -/
def argmaxAux : List ℚ → ℕ → ℕ → ℚ → ℕ
  | [], _, bi, _ => bi
  | a :: as, i, bi, bv => if bv < a then argmaxAux as (i + 1) i a else argmaxAux as (i + 1) bi bv

/-- Numpy `np.argmax` over a rational vector: index of the first occurrence of
the maximum (0 on the empty vector, where numpy instead raises). -/
def argmax : List ℚ → ℕ
  | [] => 0
  | a :: as => argmaxAux as 1 0 a

/-! ## Cell 2: the URL lists for the year range -/

def base_url_mean : String :=
  "http://www.esrl.noaa.gov/psd/thredds/dodsC/Datasets/noaa.oisst.v2.highres/sst.day.mean"

def base_url_anom : String :=
  "http://www.esrl.noaa.gov/psd/thredds/dodsC/Datasets/noaa.oisst.v2.highres/sst.day.anom"

/-- The f-string `f'{base_url_mean}.{year}.v2.nc'`. -/
def meanUrl (year : ℕ) : String := base_url_mean ++ "." ++ toString year ++ ".v2.nc"

/-- The f-string `f'{base_url_anom}.{year}.v2.nc'`. -/
def anomUrl (year : ℕ) : String := base_url_anom ++ "." ++ toString year ++ ".v2.nc"

/-- Cell 2: `files_mean`, one URL per year of the inclusive range. -/
def files_mean (start_year end_year : ℕ) : List String :=
  (arangeNat start_year (end_year + 1)).map meanUrl

/-- Cell 2: `files_anom`, one URL per year of the inclusive range. -/
def files_anom (start_year end_year : ℕ) : List String :=
  (arangeNat start_year (end_year + 1)).map anomUrl

/-! ## Cell 14: the ordinal-day axis `t` -/

/-- Cell 14: `t = np.arange(dates[0].toordinal(), dates[-1].toordinal() + 1)`,
with `dates` given by their ordinal values. -/
def buildT (dates : List ℕ) : List ℕ :=
  arangeNat (dates.headD 0) (dates.getLastD 0 + 1)

/-- A date list is daily and contiguous when each entry is its
predecessor plus one. -/
def DailyContiguous (dates : List ℕ) : Prop :=
  ∀ i < dates.length - 1, dates.getD (i + 1) 0 = dates.getD i 0 + 1

instance (dates : List ℕ) : Decidable (DailyContiguous dates) := by
  unfold DailyContiguous; infer_instance

/-! ## The dataset model (cells 3, 6, 11)

An `xarray` dataset with a time, a latitude and a longitude dimension.
Fields are functions of the coordinate values (time as a date ordinal,
latitude/longitude as rationals), so label-based slicing is filtering of
the coordinate lists. -/

structure Grid where
  times : List ℕ
  lats : List ℚ
  lons : List ℚ
  sstF : ℕ → ℚ → ℚ → ℚ
  anomF : ℕ → ℚ → ℚ → ℚ

/-- Xarray `ds.sel(time=slice(lo, hi))`: label slicing keeps the coordinates in
the closed interval `[lo, hi]`. -/
def selTime (lo hi : ℕ) (g : Grid) : Grid :=
  { g with times := g.times.filter (fun d => decide (lo ≤ d ∧ d ≤ hi)) }

/-- Xarray `ds.sel(lat=slice(lat0, lat1), lon=slice(lon0, lon1))`: label slicing
keeps the spatial coordinates in the closed bounding box. -/
def selBox (lat0 lat1 lon0 lon1 : ℚ) (g : Grid) : Grid :=
  { g with
    lats := g.lats.filter (fun la => decide (lat0 ≤ la ∧ la ≤ lat1)),
    lons := g.lons.filter (fun lo => decide (lon0 ≤ lo ∧ lo ≤ lon1)) }

/-- Sum of a field over every (lat, lon) cell of the grid at one time. -/
def boxSum (g : Grid) (f : ℕ → ℚ → ℚ → ℚ) (d : ℕ) : ℚ :=
  (g.lats.map (fun la => (g.lons.map (fun lo => f d la lo)).sum)).sum

/-- Xarray `.mean(['lon', 'lat'])` (equivalently `['lat', 'lon']`): reduce both
spatial dimensions at once, leaving a series indexed by time only. -/
def meanLatLon (g : Grid) (f : ℕ → ℚ → ℚ → ℚ) : List ℚ :=
  g.times.map (fun d => boxSum g f d / ((g.lats.length : ℚ) * (g.lons.length : ℚ)))

/-- Cell 6: `sst_anom_nino34 = ds.anom.sel(lat=slice(-5, 5), lon=slice(190, 240)).mean(['lon', 'lat'])`. -/
def sst_anom_nino34 (g : Grid) : List ℚ :=
  meanLatLon (selBox (-5) 5 190 240 g) g.anomF

/-- Cell 11: `sst_lc = ds.sst.sel(lat=slice(-32, -26), lon=slice(112, 115)).mean(['lat', 'lon'])`. -/
def sst_lc (g : Grid) : List ℚ :=
  meanLatLon (selBox (-32) (-26) 112 115 g) g.sstF

/-- Cell 14: `dates = ds.time.values...tolist()`, kept as date ordinals. -/
def datesOf (g : Grid) : List ℕ := g.times

/-- The spec's description of the spatial reducer, stated independently:
restrict the array to the bounding box, flatten the spatial values at one
time step into a single list, and take its arithmetic mean. -/
def specBoxMean (g : Grid) (f : ℕ → ℚ → ℚ → ℚ)
    (lat0 lat1 lon0 lon1 : ℚ) (d : ℕ) : ℚ :=
  let vals :=
    (g.lats.filter (fun la => decide (lat0 ≤ la ∧ la ≤ lat1))).flatMap
      (fun la => (g.lons.filter (fun lo => decide (lon0 ≤ lo ∧ lo ≤ lon1))).map
        (fun lo => f d la lo))
  vals.sum / (vals.length : ℚ)

/-! ## Cells 2–3 as a pipeline -/

/-- Ordinal of 2010-12-01, the left edge of `slice('2010-12', '2011-05')`. -/
def timeLo : ℕ := 734107

/-- Ordinal of 2011-05-31, the right edge of `slice('2010-12', '2011-05')`. -/
def timeHi : ℕ := 734288

/-- Cell 3: `ds = xr.open_mfdataset([files_mean, files_anom])` followed by
`ds = ds.sel(time=slice('2010-12', '2011-05'))`, with the remote open
abstracted by `openmf`. -/
def dsOf (openmf : List (List String) → Grid) (start_year end_year : ℕ) : Grid :=
  selTime timeLo timeHi (openmf [files_mean start_year end_year, files_anom start_year end_year])

/-! ## The event detector, modelled from the spec

`marineHeatWaves.py` (the `mhw` module called in cell 15) is an external,
unmodified third-party file that is not part of this repository's
sources.  The definitions below are *modelled from the spec*: compute a
day-of-year seasonal mean from the full series, a high-percentile
threshold per day-of-year from the deseasonalized series, flag each day
whose observed value exceeds the threshold, merge flagged runs separated
by gaps within a joining distance, discard events shorter than a minimum
duration, and report per-event summary statistics. -/

/-- Day-of-year of a date ordinal (calendar alignment simplified to a
365-day cycle). -/
def doy (d : ℕ) : ℕ := d % 365

/-- Modelled from the spec: the values of the series whose dates share a
given day-of-year (the pool a day-of-year baseline is computed from,
"using all years present"). -/
def doyGroup (t : List ℕ) (x : List ℚ) (dd : ℕ) : List ℚ :=
  (t.zip x).filterMap (fun p => if doy p.1 = dd then some p.2 else none)

/-- Arithmetic mean of a list of rationals (0 for the empty list). -/
def qmean (l : List ℚ) : ℚ := l.sum / (l.length : ℚ)

/-- Modelled from the spec: the seasonal climatology value for one
day-of-year, the mean of all series values sharing that day-of-year. -/
def seasOfDoy (t : List ℕ) (x : List ℚ) (dd : ℕ) : ℚ := qmean (doyGroup t x dd)

/-- Insert into a sorted list of rationals. -/
def insertOrd (a : ℚ) : List ℚ → List ℚ
  | [] => [a]
  | b :: bs => if a ≤ b then a :: b :: bs else b :: insertOrd a bs

/-- Insertion sort, ascending. -/
def sortQ : List ℚ → List ℚ
  | [] => []
  | a :: as => insertOrd a (sortQ as)

/-- Zero-based nearest-rank position of the 90th percentile in a sorted
sample of size `n`: `⌈0.9 n⌉ - 1`. -/
def pctlRank (n : ℕ) : ℕ := (9 * n + 9) / 10 - 1

/-- Modelled from the spec: the extreme-value threshold for one
day-of-year, the seasonal mean plus a high percentile (the 90th) of the
deseasonalized values sharing that day-of-year. -/
def threshOfDoy (t : List ℕ) (x : List ℚ) (dd : ℕ) : ℚ :=
  let grp := doyGroup t x dd
  seasOfDoy t x dd + (sortQ (grp.map (fun v => v - seasOfDoy t x dd))).getD (pctlRank grp.length) 0

/-- The seasonal climatology aligned 1:1 with the input series. -/
def seasSeries (t : List ℕ) (x : List ℚ) : List ℚ :=
  t.map (fun d => seasOfDoy t x (doy d))

/-- The threshold aligned 1:1 with the input series. -/
def threshSeries (t : List ℕ) (x : List ℚ) : List ℚ :=
  t.map (fun d => threshOfDoy t x (doy d))

/-- Modelled from the spec: flag each day whose observed value exceeds
the threshold. -/
def flagsOf (t : List ℕ) (x : List ℚ) : List Bool :=
  (t.zip x).map (fun p => decide (threshOfDoy t x (doy p.1) < p.2))

/-- Extract the maximal runs of consecutive `true` flags as closed index
intervals, scanning left to right; `i` is the index of the next flag and
the accumulator carries the run currently open. -/
def runsAux : List Bool → ℕ → Option (ℕ × ℕ) → List (ℕ × ℕ)
  | [], _, none => []
  | [], _, some r => [r]
  | b :: bs, i, none =>
      if b then runsAux bs (i + 1) (some (i, i)) else runsAux bs (i + 1) none
  | b :: bs, i, some r =>
      if b then runsAux bs (i + 1) (some (r.1, i))
      else r :: runsAux bs (i + 1) none

/-- The maximal runs of consecutive flagged days. -/
def runsOf (flags : List Bool) : List (ℕ × ℕ) := runsAux flags 0 none

/-- The configured joining distance: runs separated by a gap of at most
this many unflagged days merge into a single event. -/
def maxGap : ℕ := 2

/-- The configured minimum event duration, in days. -/
def minDuration : ℕ := 5

/-- Merge the runs that follow into the open run `r` while the gap to the
next run is within the joining distance. -/
def mergeInto (r : ℕ × ℕ) : List (ℕ × ℕ) → List (ℕ × ℕ)
  | [] => [r]
  | q :: rest =>
      if q.1 - r.2 - 1 ≤ maxGap then mergeInto (r.1, q.2) rest
      else r :: mergeInto q rest

/-- Modelled from the spec: merge flagged runs separated by small gaps
into single events when within the joining distance. -/
def mergeRuns : List (ℕ × ℕ) → List (ℕ × ℕ)
  | [] => []
  | r :: rest => mergeInto r rest

/-- An event record, the fields of `mhws` the notebook consumes plus the
underlying index interval. -/
structure MHWEvent where
  index_start : ℕ
  index_end : ℕ
  time_start : ℕ
  time_end : ℕ
  duration : ℕ
  intensity_max : ℚ
  deriving DecidableEq

/-- Maximum of a list of rationals (0 for the empty list). -/
def qmax : List ℚ → ℚ
  | [] => 0
  | a :: as => as.foldl max a

/-- Deviation of the observed value from the seasonal climatology at one
index of the series. -/
def anomAt (t : List ℕ) (x : List ℚ) (i : ℕ) : ℚ :=
  x.getD i 0 - seasOfDoy t x (doy (t.getD i 0))

/-- Build the event record for one kept run. -/
def mkEvent (t : List ℕ) (x : List ℚ) (r : ℕ × ℕ) : MHWEvent :=
  { index_start := r.1
    index_end := r.2
    time_start := t.getD r.1 0
    time_end := t.getD r.2 0
    duration := r.2 + 1 - r.1
    intensity_max := qmax ((List.range' r.1 (r.2 + 1 - r.1)).map (anomAt t x)) }

/-- The climatology output: seasonal mean and threshold per day. -/
structure Clim where
  seas : List ℚ
  thresh : List ℚ
  deriving DecidableEq

/-- The runs kept as events: merged runs at least `minDuration` long. -/
def keptRuns (t : List ℕ) (x : List ℚ) : List (ℕ × ℕ) :=
  (mergeRuns (runsOf (flagsOf t x))).filter (fun r => decide (minDuration ≤ r.2 + 1 - r.1))

/-- Modelled from the spec: `mhw.detect(t, x)` returns the event records
and the climatology, recomputed in full from its two arguments alone. -/
def detect (t : List ℕ) (x : List ℚ) : List MHWEvent × Clim :=
  ((keptRuns t x).map (mkEvent t x), ⟨seasSeries t x, threshSeries t x⟩)

/-- Cell 15: `ev = np.argmax(mhws['intensity_max'])`. -/
def evOf (ms : List MHWEvent) : ℕ := argmax (ms.map (fun m => m.intensity_max))

/-- A sequence of independent detector calls and their outputs; used to
state that no state persists from one call to a later one. -/
def runDetectCalls (calls : List (List ℕ × List ℚ)) : List (List MHWEvent × Clim) :=
  calls.map (fun c => detect c.1 c.2)

/-! ## Cell-level error flow

The notebook wraps nothing in `try`/`except`.  Each fallible stage is
modelled as an `Except`-valued step; the script is their sequential
composition, with no handler and no retry. -/

/-- The notebook's sequential run: open the remote datasets, slice the
time window, average to a series, call the detector.  Any stage's error
short-circuits the rest. -/
def pipelineRun (openF : Except String Grid)
    (sliceF : Grid → Except String Grid)
    (avgF : Grid → Except String (List ℚ))
    (detectF : List ℚ → Except String (List MHWEvent × Clim)) :
    Except String (List MHWEvent × Clim) :=
  match openF with
  | .error e => .error e
  | .ok d =>
    match sliceF d with
    | .error e => .error e
    | .ok d2 =>
      match avgF d2 with
      | .error e => .error e
      | .ok s => detectF s

/-! ## Theorems -/

lemma arangeNat_length (a b : ℕ) : (arangeNat a b).length = b - a := by
  simp [arangeNat]

lemma arangeNat_getD (a b i : ℕ) (h : i < b - a) : (arangeNat a b).getD i 0 = a + i := by
  rw [arangeNat, List.getD_eq_getElem _ _ (by simpa using h), List.getElem_range'_1]

/-- C6: for `start_year ≤ end_year` the adapter builds one mean URL and
one anomaly URL per year of the inclusive range, in increasing year
order, and the opened dataset is restricted to the single time window
before any further processing. -/
theorem c6_data_source_adapter (sy ey : ℕ) (h : sy ≤ ey)
    (openmf : List (List String) → Grid) :
    (files_mean sy ey).length = ey - sy + 1 ∧
    (files_anom sy ey).length = ey - sy + 1 ∧
    (∀ i, i < ey - sy + 1 → (files_mean sy ey).getD i "" = meanUrl (sy + i)) ∧
    (∀ i, i < ey - sy + 1 → (files_anom sy ey).getD i "" = anomUrl (sy + i)) ∧
    dsOf openmf sy ey =
      selTime timeLo timeHi (openmf [files_mean sy ey, files_anom sy ey]) ∧
    (∀ d ∈ (dsOf openmf sy ey).times, timeLo ≤ d ∧ d ≤ timeHi) := by
  have hlen : (ey + 1) - sy = ey - sy + 1 := by omega
  refine ⟨?_, ?_, ?_, ?_, rfl, ?_⟩
  · simp [files_mean, arangeNat_length, hlen]
  · simp [files_anom, arangeNat_length, hlen]
  · intro i hi
    have hi' : i < (arangeNat sy (ey + 1)).length := by rw [arangeNat_length]; omega
    rw [files_mean, List.getD_eq_getElem _ _ (by simpa using hi'), List.getElem_map,
      ← List.getD_eq_getElem _ 0 hi', arangeNat_getD _ _ _ (by omega)]
  · intro i hi
    have hi' : i < (arangeNat sy (ey + 1)).length := by rw [arangeNat_length]; omega
    rw [files_anom, List.getD_eq_getElem _ _ (by simpa using hi'), List.getElem_map,
      ← List.getD_eq_getElem _ 0 hi', arangeNat_getD _ _ _ (by omega)]
  · intro d hd
    have := List.mem_filter.mp hd
    simpa using this.2

/-- Witness for C6 at the notebook's own year range 2010–2011. -/
theorem c6_data_source_adapter_witness :
    2010 ≤ 2011 ∧
    ((files_mean 2010 2011).length = 2011 - 2010 + 1 ∧
     (files_anom 2010 2011).length = 2011 - 2010 + 1 ∧
     (∀ i, i < 2011 - 2010 + 1 → (files_mean 2010 2011).getD i "" = meanUrl (2010 + i)) ∧
     (∀ i, i < 2011 - 2010 + 1 → (files_anom 2010 2011).getD i "" = anomUrl (2010 + i)) ∧
     dsOf (fun _ => ⟨[], [], [], fun _ _ _ => 0, fun _ _ _ => 0⟩) 2010 2011 =
       selTime timeLo timeHi
         ((fun _ => (⟨[], [], [], fun _ _ _ => 0, fun _ _ _ => 0⟩ : Grid))
           [files_mean 2010 2011, files_anom 2010 2011]) ∧
     (∀ d ∈ (dsOf (fun _ => ⟨[], [], [], fun _ _ _ => 0, fun _ _ _ => 0⟩) 2010 2011).times,
       timeLo ≤ d ∧ d ≤ timeHi)) :=
  ⟨by decide,
   c6_data_source_adapter 2010 2011 (by decide)
     (fun _ => ⟨[], [], [], fun _ _ _ => 0, fun _ _ _ => 0⟩)⟩

/-- C7: no stage of the pipeline catches exceptions — an error raised at
opening, slicing, averaging, or the detector call propagates unchanged to
the top level, and no partial result is produced. -/
theorem c7_errors_propagate (openF : Except String Grid)
    (sliceF : Grid → Except String Grid)
    (avgF : Grid → Except String (List ℚ))
    (detectF : List ℚ → Except String (List MHWEvent × Clim)) :
    (∀ e, openF = .error e → pipelineRun openF sliceF avgF detectF = .error e) ∧
    (∀ d e, openF = .ok d → sliceF d = .error e →
      pipelineRun openF sliceF avgF detectF = .error e) ∧
    (∀ d d2 e, openF = .ok d → sliceF d = .ok d2 → avgF d2 = .error e →
      pipelineRun openF sliceF avgF detectF = .error e) ∧
    (∀ d d2 s e, openF = .ok d → sliceF d = .ok d2 → avgF d2 = .ok s →
      detectF s = .error e → pipelineRun openF sliceF avgF detectF = .error e) := by
  refine ⟨?_, ?_, ?_, ?_⟩
  · intro e he; simp [pipelineRun, he]
  · intro d e h1 h2; simp [pipelineRun, h1, h2]
  · intro d d2 e h1 h2 h3; simp [pipelineRun, h1, h2, h3]
  · intro d d2 s e h1 h2 h3 h4; simp [pipelineRun, h1, h2, h3, h4]

/-- Witness for C7: a failing open propagates its own error. -/
theorem c7_errors_propagate_witness :
    pipelineRun (.error "network unreachable") (fun d => .ok d)
      (fun _ => .ok []) (fun _ => .ok ([], ⟨[], []⟩)) = .error "network unreachable" :=
  (c7_errors_propagate (.error "network unreachable") (fun d => .ok d)
    (fun _ => .ok []) (fun _ => .ok ([], ⟨[], []⟩))).1 "network unreachable" rfl

/-- C8: the output of any detector call is a function of its `(t, x)`
input alone — the same input yields the same events and climatology in
any sequence of calls, so nothing persists from call to call. -/
theorem c8_detect_stateless (pre post : List (List ℕ × List ℚ))
    (t : List ℕ) (x : List ℚ) :
    (runDetectCalls (pre ++ (t, x) :: post)).get? pre.length = some (detect t x) ∧
    (∀ pre2 post2 : List (List ℕ × List ℚ),
      (runDetectCalls (pre ++ (t, x) :: post)).get? pre.length =
        (runDetectCalls (pre2 ++ (t, x) :: post2)).get? pre2.length) := by
  have key : ∀ (p q : List (List ℕ × List ℚ)),
      (runDetectCalls (p ++ (t, x) :: q)).get? p.length = some (detect t x) := by
    intro p q
    rw [runDetectCalls, List.map_append, List.map_cons, List.get?_eq_getElem?,
      List.getElem?_append_right (by simp), List.length_map]
    simp
  exact ⟨key pre post, fun pre2 post2 => by rw [key pre post, key pre2 post2]⟩

lemma pyGet_neg_one {α : Type} (l : List α) (h : l ≠ []) :
    pyGet l (-1) = l.getLast? := by
  have hlen : 1 ≤ l.length := by
    cases l with
    | nil => exact absurd rfl h
    | cons a as => simp
  rw [pyGet]
  rw [if_neg (by decide), if_pos (by simpa using hlen)]
  rw [List.getLast?_eq_getElem?, List.get?_eq_getElem?]
  norm_num

/-- C9: the shading loop `np.arange(ev - 1, ev + 1, 1)` visits exactly
the indices `ev - 1` and `ev` (never `ev + 1`, so the event after the
largest is never shaded), and at `ev = 0` the index `-1` selects the last
event of the collection by negative indexing rather than failing. -/
theorem c9_shading_indices (ev : ℕ) (ms : List MHWEvent) (hne : ms ≠ []) :
    arangeInt ((ev : ℤ) - 1) ((ev : ℤ) + 1) = [(ev : ℤ) - 1, (ev : ℤ)] ∧
    ((ev : ℤ) + 1) ∉ arangeInt ((ev : ℤ) - 1) ((ev : ℤ) + 1) ∧
    (ev = 0 → pyGet ms ((ev : ℤ) - 1) = some (ms.getLast hne)) := by
  have harange : arangeInt ((ev : ℤ) - 1) ((ev : ℤ) + 1) = [(ev : ℤ) - 1, (ev : ℤ)] := by
    have h2 : ((ev : ℤ) + 1 - ((ev : ℤ) - 1)).toNat = 2 := by omega
    rw [arangeInt, h2]
    show [(ev : ℤ) - 1 + (0 : ℕ), (ev : ℤ) - 1 + (1 : ℕ)] = [(ev : ℤ) - 1, (ev : ℤ)]
    norm_num
  refine ⟨harange, ?_, ?_⟩
  · rw [harange]
    intro hmem
    rcases List.mem_cons.mp hmem with h | h
    · omega
    · rcases List.mem_singleton.mp h with h'
      omega
  · intro hev
    subst hev
    rw [show ((0 : ℕ) : ℤ) - 1 = -1 by norm_num, pyGet_neg_one ms hne,
      List.getLast?_eq_getLast ms hne]

/-- A sample event record, used by concrete witnesses. -/
def sampleEvent : MHWEvent :=
  { index_start := 0, index_end := 4, time_start := 10, time_end := 14,
    duration := 5, intensity_max := 1 }

/-- Witness for C9 at `ev = 0` and a one-event collection. -/
theorem c9_shading_indices_witness :
    ([sampleEvent] ≠ []) ∧
    (arangeInt ((0 : ℤ) - 1) ((0 : ℤ) + 1) = [(0 : ℤ) - 1, (0 : ℤ)] ∧
     ((0 : ℤ) + 1) ∉ arangeInt ((0 : ℤ) - 1) ((0 : ℤ) + 1) ∧
     (0 = 0 → pyGet [sampleEvent] ((0 : ℤ) - 1) =
       some ([sampleEvent].getLast (List.cons_ne_nil _ _)))) :=
  ⟨List.cons_ne_nil _ _,
   by simpa using c9_shading_indices 0 [sampleEvent] (List.cons_ne_nil _ _)⟩

lemma dailyContiguous_tail (a : ℕ) (l : List ℕ) (h : DailyContiguous (a :: l)) :
    DailyContiguous l := by
  intro i hi
  have := h (i + 1) (by simpa using by omega)
  simpa [List.getD_cons_succ] using this

lemma dc_eq_range' (dates : List ℕ) (hne : dates ≠ []) (hdc : DailyContiguous dates) :
    dates = List.range' (dates.headD 0) dates.length := by
  induction dates with
  | nil => exact absurd rfl hne
  | cons a rest ih =>
    cases rest with
    | nil => rfl
    | cons b l =>
      have hb : b = a + 1 := by
        have := hdc 0 (by simp)
        simpa [List.getD] using this
      have htl := ih (List.cons_ne_nil _ _) (dailyContiguous_tail _ _ hdc)
      calc a :: b :: l = a :: List.range' ((b :: l).headD 0) (b :: l).length := by
            rw [← htl]
        _ = List.range' ((a :: b :: l).headD 0) (a :: b :: l).length := by
            simp [List.range'_succ, hb]

lemma range'_getLastD (a n : ℕ) (hn : 0 < n) :
    (List.range' a n).getLastD 0 = a + n - 1 := by
  obtain ⟨m, rfl⟩ : ∃ m, n = m + 1 := ⟨n - 1, by omega⟩
  rw [List.range'_concat, List.getLastD_concat]
  omega

lemma sst_lc_length (g : Grid) : (sst_lc g).length = g.times.length := by
  simp [sst_lc, meanLatLon, selBox]

lemma buildT_of_contiguous (dates : List ℕ) (hne : dates ≠ [])
    (hdc : DailyContiguous dates) : buildT dates = dates := by
  have hn : 0 < dates.length := List.length_pos.mpr hne
  have hr := dc_eq_range' dates hne hdc
  have hlast : dates.getLastD 0 = dates.headD 0 + dates.length - 1 := by
    conv_lhs => rw [hr]
    exact range'_getLastD _ _ hn
  have hb : buildT dates = List.range' (dates.headD 0) dates.length := by
    rw [buildT, arangeNat, hlast]
    congr 1
    omega
  rw [hb, ← hr]

/-- C1 fails as stated: on a dataset whose time coordinate has a gap
(ordinals 734107 and 734109), `t = np.arange(first, last + 1)` has three
entries while `x = sst_lc.values` has two, so `t` and `x` are not the
same length.  (The spec itself notes daily cadence is assumed, not
validated.) -/
def gGap : Grid :=
  { times := [734107, 734109], lats := [-30], lons := [113],
    sstF := fun _ _ _ => 0, anomF := fun _ _ _ => 0 }

/-- Counterexample to C1 as stated, at the concrete gapped dataset `gGap`. -/
theorem c1_counterexample :
    ¬ ((buildT (datesOf gGap)).headD 0 = (datesOf gGap).headD 0 ∧
       DailyContiguous (buildT (datesOf gGap)) ∧
       (buildT (datesOf gGap)).getLastD 0 = (datesOf gGap).getLastD 0 ∧
       (buildT (datesOf gGap)).length = (sst_lc gGap).length) := by
  intro h
  have hlen := h.2.2.2
  rw [sst_lc_length] at hlen
  exact absurd hlen (by decide)

/-- C1 amended: provided the extracted dates sequence is non-empty and
daily-contiguous (which the spec assumes of the data), `t` starts at the
first date's ordinal, increases by exactly 1, ends at the last date's
ordinal, and has the same length as the temperature series handed to the
detector. -/
theorem c1_t_construction (g : Grid) (hne : datesOf g ≠ [])
    (hdc : DailyContiguous (datesOf g)) :
    buildT (datesOf g) = datesOf g ∧
    (buildT (datesOf g)).headD 0 = (datesOf g).headD 0 ∧
    DailyContiguous (buildT (datesOf g)) ∧
    (buildT (datesOf g)).getLastD 0 = (datesOf g).getLastD 0 ∧
    (buildT (datesOf g)).length = (sst_lc g).length := by
  have key := buildT_of_contiguous (datesOf g) hne hdc
  refine ⟨key, by rw [key], by rw [key]; exact hdc, by rw [key], ?_⟩
  rw [key, sst_lc_length]
  rfl

/-- Witness for the amended C1 at a three-day contiguous dataset. -/
def gW1 : Grid :=
  { times := [734107, 734108, 734109], lats := [-30], lons := [113],
    sstF := fun _ _ _ => 0, anomF := fun _ _ _ => 0 }

theorem c1_t_construction_witness :
    (datesOf gW1 ≠ [] ∧ DailyContiguous (datesOf gW1)) ∧
    (buildT (datesOf gW1) = datesOf gW1 ∧
     (buildT (datesOf gW1)).headD 0 = (datesOf gW1).headD 0 ∧
     DailyContiguous (buildT (datesOf gW1)) ∧
     (buildT (datesOf gW1)).getLastD 0 = (datesOf gW1).getLastD 0 ∧
     (buildT (datesOf gW1)).length = (sst_lc gW1).length) :=
  ⟨⟨by decide, by decide⟩, c1_t_construction gW1 (by decide) (by decide)⟩

lemma meanLatLon_box (g : Grid) (f : ℕ → ℚ → ℚ → ℚ) (lat0 lat1 lon0 lon1 : ℚ)
    (i : ℕ) (hi : i < g.times.length) :
    (meanLatLon (selBox lat0 lat1 lon0 lon1 g) f).getD i 0 =
      specBoxMean g f lat0 lat1 lon0 lon1 (g.times.getD i 0) := by
  have htimes : (selBox lat0 lat1 lon0 lon1 g).times = g.times := rfl
  have hi' : i < ((selBox lat0 lat1 lon0 lon1 g).times.map (fun d =>
      boxSum (selBox lat0 lat1 lon0 lon1 g) f d /
        (((selBox lat0 lat1 lon0 lon1 g).lats.length : ℚ) *
          ((selBox lat0 lat1 lon0 lon1 g).lons.length : ℚ)))).length := by
    simpa [htimes] using hi
  rw [meanLatLon, List.getD_eq_getElem _ _ hi', List.getElem_map]
  set la' := (selBox lat0 lat1 lon0 lon1 g).lats with hla
  set lo' := (selBox lat0 lat1 lon0 lon1 g).lons with hlo
  have hig : i < g.times.length := hi
  set d := g.times.get ⟨i, hig⟩
  have hd : g.times.getD i 0 = d := by
    rw [List.getD_eq_getElem _ _ hi]
    rfl
  rw [hd]
  have hsum : (la'.flatMap (fun la => lo'.map (fun lo => f d la lo))).sum =
      boxSum (selBox lat0 lat1 lon0 lon1 g) f d := by
    rw [List.flatMap_def, List.sum_flatten, List.map_map, boxSum]
    rfl
  have hlen : (la'.flatMap (fun la => lo'.map (fun lo => f d la lo))).length =
      la'.length * lo'.length := by
    rw [List.length_flatMap]
    have : (la'.map (List.length ∘ fun la => lo'.map (fun lo => f d la lo))) =
        List.replicate la'.length lo'.length := by
      rw [← List.map_const']
      exact List.map_congr_left (fun a _ => by simp [Function.comp])
    rw [this, List.sum_const_nat]
  rw [specBoxMean]
  show boxSum (selBox lat0 lat1 lon0 lon1 g) f d / ((la'.length : ℚ) * (lo'.length : ℚ)) =
    (la'.flatMap (fun la => lo'.map (fun lo => f d la lo))).sum /
      ((la'.flatMap (fun la => lo'.map (fun lo => f d la lo))).length : ℚ)
  rw [hsum, hlen, Nat.cast_mul]

/-- C4: the spatial reducer collapses both spatial dimensions into a 1-D
series indexed by time only, and at every time step the Niño 3.4 value
(respectively the Leeuwin Current SST value) is the arithmetic mean of
the anomaly (respectively SST) field over its bounding box. -/
theorem c4_spatial_reducer (g : Grid) (i : ℕ) (hi : i < g.times.length) :
    (sst_anom_nino34 g).length = g.times.length ∧
    (sst_lc g).length = g.times.length ∧
    (sst_anom_nino34 g).getD i 0 =
      specBoxMean g g.anomF (-5) 5 190 240 (g.times.getD i 0) ∧
    (sst_lc g).getD i 0 =
      specBoxMean g g.sstF (-32) (-26) 112 115 (g.times.getD i 0) :=
  ⟨by simp [sst_anom_nino34, meanLatLon, selBox],
   sst_lc_length g,
   meanLatLon_box g g.anomF (-5) 5 190 240 i hi,
   meanLatLon_box g g.sstF (-32) (-26) 112 115 i hi⟩

/-- Witness for C4 at a concrete 1 × 2 × 2 dataset. -/
def gW4 : Grid :=
  { times := [734107], lats := [-3, 0], lons := [200, 210],
    sstF := fun _ la lo => la + lo, anomF := fun _ la lo => la - lo }

theorem c4_spatial_reducer_witness :
    (0 < gW4.times.length) ∧
    ((sst_anom_nino34 gW4).length = gW4.times.length ∧
     (sst_lc gW4).length = gW4.times.length ∧
     (sst_anom_nino34 gW4).getD 0 0 =
       specBoxMean gW4 gW4.anomF (-5) 5 190 240 (gW4.times.getD 0 0) ∧
     (sst_lc gW4).getD 0 0 =
       specBoxMean gW4 gW4.sstF (-32) (-26) 112 115 (gW4.times.getD 0 0)) :=
  ⟨by decide, c4_spatial_reducer gW4 0 (by decide)⟩

lemma le_foldl_max (as : List ℚ) : ∀ a : ℚ, a ≤ as.foldl max a := by
  induction as with
  | nil => intro a; exact le_refl a
  | cons b bs ih =>
    intro a
    calc a ≤ max a b := le_max_left a b
      _ ≤ bs.foldl max (max a b) := ih (max a b)

lemma mem_le_foldl_max (as : List ℚ) : ∀ (a x : ℚ), x ∈ as → x ≤ as.foldl max a := by
  induction as with
  | nil => intro a x hx; exact absurd hx (List.not_mem_nil x)
  | cons b bs ih =>
    intro a x hx
    rcases List.mem_cons.mp hx with h | h
    · subst h
      calc x ≤ max a x := le_max_right a x
        _ ≤ bs.foldl max (max a x) := le_foldl_max bs (max a x)
    · exact ih (max a b) x h

lemma argmaxAux_spec (l : List ℚ) : ∀ (i bi : ℕ) (bv : ℚ) (f : ℕ → ℚ),
    f bi = bv → (∀ k, k < l.length → f (i + k) = l.getD k 0) → bi < i →
    argmaxAux l i bi bv < i + l.length ∧ f (argmaxAux l i bi bv) = l.foldl max bv := by
  induction l with
  | nil =>
    intro i bi bv f hf _ hbi
    exact ⟨by simpa using hbi, hf⟩
  | cons a as ih =>
    intro i bi bv f hf hshift hbi
    have ha : f (i + 0) = a := by simpa using hshift 0 (by simp)
    have hshift' : ∀ k, k < as.length → f ((i + 1) + k) = as.getD k 0 := by
      intro k hk
      have := hshift (k + 1) (by simpa using by omega)
      rw [show i + (k + 1) = (i + 1) + k by omega] at this
      simpa [List.getD_cons_succ] using this
    rw [argmaxAux]
    by_cases hlt : bv < a
    · rw [if_pos hlt]
      have := ih (i + 1) i a f (by simpa using ha) hshift' (by omega)
      refine ⟨by have := this.1; simp only [List.length_cons]; omega, ?_⟩
      rw [this.2, List.foldl_cons, max_eq_right (le_of_lt hlt)]
    · rw [if_neg hlt]
      have := ih (i + 1) bi bv f hf hshift' (by omega)
      refine ⟨by have := this.1; simp only [List.length_cons]; omega, ?_⟩
      rw [this.2, List.foldl_cons, max_eq_left (not_lt.mp hlt)]

lemma argmax_spec (l : List ℚ) (hne : l ≠ []) :
    argmax l < l.length ∧ ∀ j, j < l.length → l.getD j 0 ≤ l.getD (argmax l) 0 := by
  cases l with
  | nil => exact absurd rfl hne
  | cons a as =>
    have hspec := argmaxAux_spec as 1 0 a (fun j => (a :: as).getD j 0) rfl
      (fun k hk => by
        rw [show 1 + k = k + 1 by omega]
        simp [List.getD_cons_succ]) (by omega)
    have hlt : argmax (a :: as) < (a :: as).length := by
      rw [argmax]
      have := hspec.1
      simp only [List.length_cons]
      omega
    refine ⟨hlt, ?_⟩
    intro j hj
    have hval : (a :: as).getD (argmax (a :: as)) 0 = as.foldl max a := by
      rw [argmax]; exact hspec.2
    rw [hval]
    have hmem : (a :: as).getD j 0 ∈ a :: as :=
      List.getD_eq_getElem _ _ hj ▸ List.getElem_mem _
    rcases List.mem_cons.mp hmem with h | h
    · rw [h]; exact le_foldl_max as a
    · exact mem_le_foldl_max as a _ h

/-- C3: `ev = np.argmax(mhws['intensity_max'])` is a valid index into the
event collection and the event it selects has a peak intensity at least
that of every event in the collection. -/
theorem c3_argmax_largest_event (ms : List MHWEvent) (hne : ms ≠ []) :
    evOf ms < ms.length ∧
    ∀ j, j < ms.length →
      (ms.map (fun m => m.intensity_max)).getD j 0 ≤
        (ms.map (fun m => m.intensity_max)).getD (evOf ms) 0 := by
  have hne' : ms.map (fun m => m.intensity_max) ≠ [] := by
    simpa using hne
  have h := argmax_spec (ms.map (fun m => m.intensity_max)) hne'
  rw [List.length_map] at h
  exact ⟨h.1, h.2⟩

/-- Witness for C3 at a two-event collection. -/
def sampleEvent2 : MHWEvent :=
  { index_start := 8, index_end := 14, time_start := 18, time_end := 24,
    duration := 7, intensity_max := 3 }

theorem c3_argmax_largest_event_witness :
    ([sampleEvent, sampleEvent2] ≠ []) ∧
    (evOf [sampleEvent, sampleEvent2] < [sampleEvent, sampleEvent2].length ∧
     ∀ j, j < [sampleEvent, sampleEvent2].length →
       ([sampleEvent, sampleEvent2].map (fun m => m.intensity_max)).getD j 0 ≤
         ([sampleEvent, sampleEvent2].map (fun m => m.intensity_max)).getD
           (evOf [sampleEvent, sampleEvent2]) 0) :=
  ⟨List.cons_ne_nil _ _,
   c3_argmax_largest_event [sampleEvent, sampleEvent2] (List.cons_ne_nil _ _)⟩

/-! ### Run intervals: ordering and bounds invariant -/

/-- Predicate `RunsLB lb n rs`: the runs `rs` are well-formed closed index
intervals below `n`, pairwise disjoint and increasing, with every start
at least `lb`. -/
def RunsLB : ℕ → ℕ → List (ℕ × ℕ) → Prop
  | _, _, [] => True
  | lb, n, r :: rest => lb ≤ r.1 ∧ r.1 ≤ r.2 ∧ r.2 < n ∧ RunsLB (r.2 + 1) n rest

lemma runsAux_lb (bs : List Bool) : ∀ (i lb : ℕ) (acc : Option (ℕ × ℕ)),
    (acc = none → lb ≤ i) →
    (∀ s e, acc = some (s, e) → lb ≤ s ∧ s ≤ e ∧ e + 1 = i) →
    RunsLB lb (i + bs.length) (runsAux bs i acc) := by
  induction bs with
  | nil =>
    intro i lb acc hnone hsome
    cases acc with
    | none => rw [runsAux]; trivial
    | some r =>
      obtain ⟨h1, h2, h3⟩ := hsome r.1 r.2 rfl
      rw [runsAux]
      exact ⟨h1, h2, by omega, trivial⟩
  | cons b bs ih =>
    intro i lb acc hnone hsome
    cases acc with
    | none =>
      rw [runsAux]
      have harith : (i + 1) + bs.length = i + (b :: bs).length := by
        simp only [List.length_cons]; omega
      by_cases hb : b
      · rw [if_pos hb, ← harith]
        exact ih (i + 1) lb (some (i, i)) (by intro h; exact absurd h (by simp))
          (fun s e hse => by
            obtain ⟨hs, he⟩ := Prod.mk.inj (Option.some.inj hse)
            have hlbi := hnone rfl
            exact ⟨by omega, by omega, by omega⟩)
      · rw [if_neg hb, ← harith]
        exact ih (i + 1) lb none (fun _ => by have := hnone rfl; omega)
          (fun s e hse => by exact absurd hse (by simp))
    | some r =>
      obtain ⟨h1, h2, h3⟩ := hsome r.1 r.2 rfl
      rw [runsAux]
      have harith : (i + 1) + bs.length = i + (b :: bs).length := by
        simp only [List.length_cons]; omega
      by_cases hb : b
      · rw [if_pos hb, ← harith]
        exact ih (i + 1) lb (some (r.1, i)) (by intro h; exact absurd h (by simp))
          (fun s e hse => by
            obtain ⟨hs, he⟩ := Prod.mk.inj (Option.some.inj hse)
            exact ⟨by omega, by omega, by omega⟩)
      · rw [if_neg hb, ← harith]
        refine ⟨h1, h2, by omega, ?_⟩
        exact ih (i + 1) (r.2 + 1) none (fun _ => by omega)
          (fun s e hse => by exact absurd hse (by simp))

lemma mergeInto_lb : ∀ (l : List (ℕ × ℕ)) (lb n : ℕ) (r : ℕ × ℕ),
    lb ≤ r.1 → r.1 ≤ r.2 → r.2 < n → RunsLB (r.2 + 1) n l →
    RunsLB lb n (mergeInto r l) := by
  intro l
  induction l with
  | nil =>
    intro lb n r h1 h2 h3 _
    exact ⟨h1, h2, h3, trivial⟩
  | cons q rest ih =>
    intro lb n r h1 h2 h3 hl
    obtain ⟨hq1, hq2, hq3, hrest⟩ := hl
    rw [mergeInto]
    by_cases hgap : q.1 - r.2 - 1 ≤ maxGap
    · rw [if_pos hgap]
      exact ih lb n (r.1, q.2) h1 (by show r.1 ≤ q.2; omega) hq3 hrest
    · rw [if_neg hgap]
      exact ⟨h1, h2, h3, ih (r.2 + 1) n q hq1 hq2 hq3 hrest⟩

lemma mergeRuns_lb (l : List (ℕ × ℕ)) (lb n : ℕ) (h : RunsLB lb n l) :
    RunsLB lb n (mergeRuns l) := by
  cases l with
  | nil => trivial
  | cons r rest =>
    obtain ⟨h1, h2, h3, hrest⟩ := h
    exact mergeInto_lb rest lb n r h1 h2 h3 hrest

lemma runsLB_mem (l : List (ℕ × ℕ)) : ∀ (lb n : ℕ), RunsLB lb n l →
    ∀ r ∈ l, r.1 ≤ r.2 ∧ r.2 < n := by
  induction l with
  | nil => intro lb n _ r hr; exact absurd hr (List.not_mem_nil r)
  | cons q rest ih =>
    intro lb n h r hr
    obtain ⟨h1, h2, h3, hrest⟩ := h
    rcases List.mem_cons.mp hr with h | h
    · subst h; exact ⟨h2, h3⟩
    · exact ih (q.2 + 1) n hrest r h

/-- Every kept run is a well-formed index interval inside the zipped
series. -/
lemma keptRuns_bounds (t : List ℕ) (x : List ℚ) :
    ∀ r ∈ keptRuns t x, r.1 ≤ r.2 ∧ r.2 < (t.zip x).length := by
  intro r hr
  have hmem : r ∈ mergeRuns (runsOf (flagsOf t x)) := (List.mem_filter.mp hr).1
  have hflags : (flagsOf t x).length = (t.zip x).length := by
    simp [flagsOf]
  have h0 : RunsLB 0 (0 + (flagsOf t x).length) (runsAux (flagsOf t x) 0 none) :=
    runsAux_lb (flagsOf t x) 0 0 none (fun _ => le_refl 0)
      (fun s e hse => by exact absurd hse (by simp))
  rw [Nat.zero_add, hflags] at h0
  have hm := mergeRuns_lb _ _ _ h0
  exact runsLB_mem _ _ _ hm r hmem

/-! ### C2: event invariants -/

lemma pairwise_getD_lt (t : List ℕ) (h : t.Pairwise (· < ·)) (i j : ℕ)
    (hij : i < j) (hj : j < t.length) : t.getD i 0 < t.getD j 0 := by
  have hi : i < t.length := by omega
  rw [List.getD_eq_getElem _ _ hi, List.getD_eq_getElem _ _ hj]
  exact List.pairwise_iff_getElem.mp h i j hi hj hij

lemma pairwise_getD_le (t : List ℕ) (h : t.Pairwise (· < ·)) (i j : ℕ)
    (hij : i ≤ j) (hj : j < t.length) : t.getD i 0 ≤ t.getD j 0 := by
  rcases Nat.lt_or_ge i j with hlt | hge
  · exact le_of_lt (pairwise_getD_lt t h i j hlt hj)
  · have : i = j := by omega
    rw [this]

lemma getLastD_eq_getD (t : List ℕ) (h : 0 < t.length) :
    t.getLastD 0 = t.getD (t.length - 1) 0 := by
  rw [List.getLastD_eq_getLast?, List.getLast?_eq_getElem?]
  simp [List.getD, List.get?_eq_getElem?]

lemma filter_interval (n s e : ℕ) (hse : s ≤ e) (hen : e < n) :
    (List.range n).filter (fun i => decide (s ≤ i ∧ i ≤ e)) = List.range' s (e + 1 - s) := by
  rw [List.range_eq_range']
  have h1 : List.range' (0 : ℕ) n = List.range' 0 s ++ List.range' (0 + s) (n - s) := by
    rw [List.range'_append_1]
    congr 1
    omega
  have h2 : List.range' s (n - s) =
      List.range' s (e + 1 - s) ++ List.range' (s + (e + 1 - s)) ((n - s) - (e + 1 - s)) := by
    rw [List.range'_append_1]
    congr 1
    omega
  have hs1 : (0 : ℕ) + s = s := by omega
  have hs2 : s + (e + 1 - s) = e + 1 := by omega
  rw [h1, hs1, h2, hs2, List.filter_append, List.filter_append]
  have c1 : (List.range' 0 s).filter (fun i => decide (s ≤ i ∧ i ≤ e)) = [] := by
    rw [List.filter_eq_nil_iff]
    intro a ha
    have := List.mem_range'_1.mp ha
    simp only [decide_eq_true_eq]
    omega
  have c2 : (List.range' s (e + 1 - s)).filter (fun i => decide (s ≤ i ∧ i ≤ e)) =
      List.range' s (e + 1 - s) := by
    rw [List.filter_eq_self]
    intro a ha
    have := List.mem_range'_1.mp ha
    simp only [decide_eq_true_eq]
    omega
  have c3 : (List.range' (e + 1) ((n - s) - (e + 1 - s))).filter
      (fun i => decide (s ≤ i ∧ i ≤ e)) = [] := by
    rw [List.filter_eq_nil_iff]
    intro a ha
    have := List.mem_range'_1.mp ha
    simp only [decide_eq_true_eq]
    omega
  rw [c1, c2, c3, List.nil_append, List.append_nil]

lemma filter_day_interval (t : List ℕ) (hmono : t.Pairwise (· < ·)) (s e : ℕ)
    (hse : s ≤ e) (he : e < t.length) :
    (List.range t.length).filter
      (fun i => decide (t.getD s 0 ≤ t.getD i 0 ∧ t.getD i 0 ≤ t.getD e 0)) =
    List.range' s (e + 1 - s) := by
  have hcong : ∀ i ∈ List.range t.length,
      decide (t.getD s 0 ≤ t.getD i 0 ∧ t.getD i 0 ≤ t.getD e 0) =
        decide (s ≤ i ∧ i ≤ e) := by
    intro i hi
    rw [List.mem_range] at hi
    rw [decide_eq_decide]
    constructor
    · rintro ⟨hl, hr⟩
      constructor
      · by_contra hns
        have hlt := pairwise_getD_lt t hmono i s (by omega) (by omega)
        omega
      · by_contra hne
        have hlt := pairwise_getD_lt t hmono e i (by omega) (by omega)
        omega
    · rintro ⟨hl, hr⟩
      exact ⟨pairwise_getD_le t hmono s i hl hi, pairwise_getD_le t hmono i e hr (by omega)⟩
  rw [List.filter_congr hcong, filter_interval t.length s e hse he]

/-- C2 (spec-modelled detector): every event reported by `detect` has
`time_start ≤ time_end ≤` the last day of the series, and its peak
intensity is the maximum deviation of the observations from the seasonal
climatology over the days in `[time_start, time_end]`. -/
theorem c2_event_invariants (t : List ℕ) (x : List ℚ)
    (hmono : t.Pairwise (· < ·)) (hlen : x.length = t.length) :
    ∀ m ∈ (detect t x).1,
      m.time_start ≤ m.time_end ∧
      m.time_end ≤ t.getLastD 0 ∧
      m.intensity_max =
        qmax (((List.range t.length).filter
          (fun i => decide (m.time_start ≤ t.getD i 0 ∧ t.getD i 0 ≤ m.time_end))).map
            (anomAt t x)) := by
  intro m hm
  obtain ⟨r, hr, rfl⟩ := List.mem_map.mp hm
  have hbounds := keptRuns_bounds t x r hr
  have hzip : (t.zip x).length = t.length := by
    rw [List.length_zip, hlen, Nat.min_self]
  have hs_le : r.1 ≤ r.2 := hbounds.1
  have he_lt : r.2 < t.length := by rw [← hzip]; exact hbounds.2
  have hts : (mkEvent t x r).time_start = t.getD r.1 0 := rfl
  have hte : (mkEvent t x r).time_end = t.getD r.2 0 := rfl
  refine ⟨?_, ?_, ?_⟩
  · rw [hts, hte]
    exact pairwise_getD_le t hmono r.1 r.2 hs_le he_lt
  · rw [hte, getLastD_eq_getD t (by omega)]
    exact pairwise_getD_le t hmono r.2 (t.length - 1) (by omega) (by omega)
  · rw [hts, hte, filter_day_interval t hmono r.1 r.2 hs_le he_lt]
    rfl

/-- A two-year synthetic series with one five-day heat spike, used as the
concrete witness input for the detector. -/
def tW : List ℕ := (List.range 50).map (fun j => 365 * (j / 5) + j % 5)

def xW : List ℚ := (List.range 50).map (fun j => if 45 ≤ j then (10 : ℚ) else 0)

theorem c2_event_invariants_witness :
    (tW.Pairwise (· < ·) ∧ xW.length = tW.length) ∧
    (∀ m ∈ (detect tW xW).1,
      m.time_start ≤ m.time_end ∧
      m.time_end ≤ tW.getLastD 0 ∧
      m.intensity_max =
        qmax (((List.range tW.length).filter
          (fun i => decide (m.time_start ≤ tW.getD i 0 ∧ tW.getD i 0 ≤ m.time_end))).map
            (anomAt tW xW))) :=
  ⟨⟨by decide, by decide⟩, c2_event_invariants tW xW (by decide) (by decide)⟩

/-! ### C10: the plotting lookups cannot miss -/

lemma npWhereFirst_isSome (l : List ℕ) (v : ℕ) (hv : v ∈ l) :
    (npWhereFirst l v).isSome := by
  rw [npWhereFirst, List.findIdx?_isSome, List.any_eq_true]
  exact ⟨v, hv, by simp⟩

/-- C10: with `t` built as the contiguous ordinal range and `x` of the
same length, every event's `time_start` and `time_end` are found by
`np.where(t == ...)[0][0]` — the lookup never fails. -/
theorem c10_plot_lookups_succeed (dates : List ℕ) (x : List ℚ) (hne : dates ≠ [])
    (hdc : DailyContiguous dates) (hlen : x.length = (buildT dates).length) :
    ∀ m ∈ (detect (buildT dates) x).1,
      (npWhereFirst (buildT dates) m.time_start).isSome ∧
      (npWhereFirst (buildT dates) m.time_end).isSome := by
  intro m hm
  obtain ⟨r, hr, rfl⟩ := List.mem_map.mp hm
  have hbounds := keptRuns_bounds (buildT dates) x r hr
  have hzip : ((buildT dates).zip x).length = (buildT dates).length := by
    rw [List.length_zip, hlen, Nat.min_self]
  have he_lt : r.2 < (buildT dates).length := by rw [← hzip]; exact hbounds.2
  have hs_lt : r.1 < (buildT dates).length := by omega
  constructor
  · apply npWhereFirst_isSome
    show (buildT dates).getD r.1 0 ∈ buildT dates
    rw [List.getD_eq_getElem _ _ hs_lt]
    exact List.getElem_mem _
  · apply npWhereFirst_isSome
    show (buildT dates).getD r.2 0 ∈ buildT dates
    rw [List.getD_eq_getElem _ _ he_lt]
    exact List.getElem_mem _

/-- Witness input for C10: five contiguous dates and a series of equal
length. -/
def datesW : List ℕ := [734107, 734108, 734109, 734110, 734111]

def xW10 : List ℚ := [12, 13, 14, 13, 12]

theorem c10_plot_lookups_succeed_witness :
    (datesW ≠ [] ∧ DailyContiguous datesW ∧ xW10.length = (buildT datesW).length) ∧
    (∀ m ∈ (detect (buildT datesW) xW10).1,
      (npWhereFirst (buildT datesW) m.time_start).isSome ∧
      (npWhereFirst (buildT datesW) m.time_end).isSome) :=
  ⟨⟨by decide, by decide, by decide⟩,
   c10_plot_lookups_succeed datesW xW10 (by decide) (by decide) (by decide)⟩

/-! ### C5: a flat series produces no events -/

lemma insertOrd_zero_replicate (k : ℕ) :
    insertOrd 0 (List.replicate k (0 : ℚ)) = List.replicate (k + 1) 0 := by
  cases k with
  | zero => rfl
  | succ k =>
    rw [List.replicate_succ, insertOrd, if_pos (le_refl (0 : ℚ))]
    rfl

lemma sortQ_replicate_zero (k : ℕ) :
    sortQ (List.replicate k (0 : ℚ)) = List.replicate k 0 := by
  induction k with
  | zero => rfl
  | succ k ih =>
    rw [List.replicate_succ, sortQ, ih, insertOrd_zero_replicate, List.replicate_succ]

lemma getD_replicate_zero (k i : ℕ) : (List.replicate k (0 : ℚ)).getD i 0 = 0 := by
  induction k generalizing i with
  | zero => rfl
  | succ k ih =>
    cases i with
    | zero => rfl
    | succ i => rw [List.replicate_succ, List.getD_cons_succ]; exact ih i

lemma doyGroup_all_flat (t : List ℕ) (x : List ℚ) (c : ℚ)
    (hx : x = List.replicate t.length c) (dd : ℕ) :
    ∀ v ∈ doyGroup t x dd, v = c := by
  intro v hv
  obtain ⟨p, hp, hf⟩ := List.mem_filterMap.mp hv
  have hpc : p.2 = c := by
    have := (List.of_mem_zip hp).2
    rw [hx] at this
    exact List.eq_of_mem_replicate this
  by_cases hdd : doy p.1 = dd
  · rw [if_pos hdd] at hf
    rw [← Option.some.inj hf]
    exact hpc
  · rw [if_neg hdd] at hf
    exact absurd hf (by simp)

lemma doyGroup_self_mem (t : List ℕ) (x : List ℚ) (p : ℕ × ℚ) (hp : p ∈ t.zip x) :
    p.2 ∈ doyGroup t x (doy p.1) :=
  List.mem_filterMap.mpr ⟨p, hp, by simp⟩

lemma seasOfDoy_flat (t : List ℕ) (x : List ℚ) (c : ℚ)
    (hx : x = List.replicate t.length c) (dd : ℕ) (hgrp : doyGroup t x dd ≠ []) :
    seasOfDoy t x dd = c := by
  have hrep : doyGroup t x dd = List.replicate (doyGroup t x dd).length c :=
    List.eq_replicate_of_mem (doyGroup_all_flat t x c hx dd)
  have hk : 0 < (doyGroup t x dd).length := List.length_pos.mpr hgrp
  rw [seasOfDoy, qmean]
  conv_lhs => rw [hrep]
  rw [List.length_replicate, List.sum_replicate, nsmul_eq_mul]
  exact mul_div_cancel_left₀ c (by exact_mod_cast Nat.pos_iff_ne_zero.mp hk)

lemma threshOfDoy_flat (t : List ℕ) (x : List ℚ) (c : ℚ)
    (hx : x = List.replicate t.length c) (dd : ℕ) (hgrp : doyGroup t x dd ≠ []) :
    threshOfDoy t x dd = c := by
  have hseas := seasOfDoy_flat t x c hx dd hgrp
  have hrep : doyGroup t x dd = List.replicate (doyGroup t x dd).length c :=
    List.eq_replicate_of_mem (doyGroup_all_flat t x c hx dd)
  rw [threshOfDoy]
  show seasOfDoy t x dd +
    (sortQ ((doyGroup t x dd).map (fun v => v - seasOfDoy t x dd))).getD
      (pctlRank (doyGroup t x dd).length) 0 = c
  rw [hseas]
  have hmap : (doyGroup t x dd).map (fun v => v - c) =
      List.replicate (doyGroup t x dd).length (0 : ℚ) := by
    conv_lhs => rw [hrep]
    rw [List.map_replicate, sub_self]
  rw [hmap, sortQ_replicate_zero, getD_replicate_zero, add_zero]

lemma runsAux_all_false (bs : List Bool) (hb : ∀ b ∈ bs, b = false) :
    ∀ i, runsAux bs i none = [] := by
  induction bs with
  | nil => intro i; rfl
  | cons b bs ih =>
    intro i
    have hbf : b = false := hb b (List.mem_cons_self b bs)
    rw [runsAux, hbf, if_neg (by simp)]
    exact ih (fun q hq => hb q (List.mem_cons_of_mem b hq)) (i + 1)

/-- C5 (spec-modelled detector): for an input series that is flat — each
day's value is the common constant, which is then its own seasonal mean —
the detector reports zero events. -/
theorem c5_flat_series (t : List ℕ) (x : List ℚ) (c : ℚ)
    (hx : x = List.replicate t.length c) : (detect t x).1 = [] := by
  have hfl : ∀ b ∈ flagsOf t x, b = false := by
    intro b hb
    obtain ⟨p, hp, rfl⟩ := List.mem_map.mp hb
    have hpc : p.2 = c := by
      have := (List.of_mem_zip hp).2
      rw [hx] at this
      exact List.eq_of_mem_replicate this
    have hgrp : doyGroup t x (doy p.1) ≠ [] := by
      intro hnil
      have := doyGroup_self_mem t x p hp
      rw [hnil] at this
      exact List.not_mem_nil p.2 this
    rw [threshOfDoy_flat t x c hx (doy p.1) hgrp, hpc]
    simp [lt_irrefl]
  have hruns : runsOf (flagsOf t x) = [] := runsAux_all_false _ hfl 0
  show ((keptRuns t x).map (mkEvent t x)) = []
  rw [keptRuns, hruns]
  rfl

/-- Witness input for C5: two dates, a flat 15 °C series. -/
def tF : List ℕ := [734107, 734108]

theorem c5_flat_series_witness :
    (List.replicate tF.length (15 : ℚ) = List.replicate tF.length 15) ∧
    (detect tF (List.replicate tF.length 15)).1 = [] :=
  ⟨rfl, c5_flat_series tF (List.replicate tF.length 15) 15 rfl⟩

/-! ### Sanity: a known synthetic spike yields exactly one event

Ten synthetic years sharing five day-of-year slots, flat except for one
five-day spike of magnitude 10 in the final year.  The detector reports
exactly one event bracketing the spike, with peak intensity equal to the
spike's maximum deviation from the seasonal mean (10 − 1 = 9). -/

def tSpike : List ℕ := (List.range 50).map (fun j => 365 * (j / 5) + j % 5)

def xSpike : List ℚ := (List.range 50).map (fun j => if 45 ≤ j then (10 : ℚ) else 0)

set_option maxRecDepth 100000 in
theorem detect_single_spike :
    (detect tSpike xSpike).1 =
      [{ index_start := 45, index_end := 49, time_start := 3285, time_end := 3289,
         duration := 5, intensity_max := 9 }] := by
  with_unfolding_all rfl

end MarineHeatwaves
